import Mathlib

/-!
# Verification of the `acpl` package of `most-accurate-games`

This file gives a shallow embedding of the core of the repository
(`src/acpl/acpl.go`): the PGN record splitter (`splitPGN` and the
`bufio.Scanner` loop driving it), the annotation evaluator (`parseEval`),
the per-game accuracy computation (`computeACPL`) and the ranking entry
point (`RankByACPL`), together with theorems settling the claims about
them.

Modelling conventions:

* Byte streams and record texts are modelled as `List Char` / `String`.
  The delimiter `"\n\n\n"` consists of ASCII bytes that cannot occur
  inside a multi-byte UTF-8 character, so char-level splitting agrees
  with Go's byte-level `bytes.Index` on any valid UTF-8 input.
* `float64` arithmetic is modelled by exact rational arithmetic (`ℚ`)
  in the finite regime — the numeric claims of the spec are stated at
  this exact level (e.g. `%eval -0.3` ↦ `-30`); IEEE rounding is out
  of scope.  Where a claim turns on the IEEE special values, the
  `GoFloat` refinement (NaN, signed infinities, exact finite values)
  and the parallel `…F` definitions model them explicitly.
* `fmt.Sscanf(s, "%f", &v)` is modelled by `goScanFloat`: skip leading
  spaces (a newline terminates the scan, as in Go's `Scanf` family),
  then scan an optional sign, decimal digits, an optional fractional
  part and an optional exponent, ignoring any trailing characters.
  `fmt`'s special tokens — case-insensitive `nan` and `inf` and Go
  hex-floats — are covered by the refined scanner `goScanFloatF`
  below; only digit-separating underscores in numerals, which denote
  nothing but other finite values, stay outside both scanners.
* `strings.EqualFold` is modelled by ASCII case folding (`eqFold`);
  the non-ASCII simple-fold cases of Unicode do not arise for the
  player-name tags this code compares.
* The external game-record parser (`github.com/notnil/chess`) is a
  parameter `parse : String → Option Game`; a parsed game is exactly
  what `computeACPL` consumes: its tag pairs, its move list and its
  per-ply comment lists.
* `sort.Slice` is external library code whose documented contract is
  "sorts the slice given the provided less function" and "the sort is
  not guaranteed to be stable".  It is modelled by the relation
  `SortSliceSpec`: the output is a permutation of the input that is
  sorted for the comparator.  Consequently `RankByACPL` is a relation
  between its inputs and its admissible results; all other components
  are executable functions.
* A reader failure is modelled by the pair (bytes successfully read,
  pending error): `bufio.Scanner` consumes all buffered data before
  `Scan` returns false, and `scanner.Err()` then reports the error.
-/

/-! ## Characters and strings -/

/-- The white-space predicate of Go's `unicode.IsSpace`, used by
`strings.TrimSpace`. -/
def isGoSpace (c : Char) : Bool :=
  c == ' ' || c == '\t' || c == '\n' || (c.toNat ≥ 11 && c.toNat ≤ 13) ||
  c.toNat == 133 || c.toNat == 160 || c.toNat == 0x1680 ||
  (c.toNat ≥ 0x2000 && c.toNat ≤ 0x200A) ||
  c.toNat == 0x2028 || c.toNat == 0x2029 || c.toNat == 0x202F ||
  c.toNat == 0x205F || c.toNat == 0x3000

/-- ASCII lower-casing of one character. -/
def lowerASCII (c : Char) : Char :=
  if 'A' ≤ c ∧ c ≤ 'Z' then Char.ofNat (c.toNat + 32) else c

/-- Model of `strings.EqualFold` in the ASCII regime: equality after
case folding every character. -/
def eqFold (a b : String) : Bool :=
  a.data.map lowerASCII == b.data.map lowerASCII

/-- Model of `strings.Index` / `bytes.Index`: index of the first
occurrence of `pat` in `s`, or `none`. -/
def findSubstr (s pat : List Char) : Option Nat :=
  match s with
  | [] => if pat.isEmpty then some 0 else none
  | _ :: rest =>
    if pat.isPrefixOf s then some 0
    else (findSubstr rest pat).map (· + 1)

/-! ## The record splitter -/

/-- The PGN record delimiter: three consecutive line feeds. -/
def splitDelim : List Char := ['\n', '\n', '\n']

/-- Model of `splitPGN` from `src/acpl/acpl.go`: one step of the
`bufio.SplitFunc`.  Returns the number of characters to advance and the
token produced, if any. -/
def splitPGN (data : List Char) (atEOF : Bool) : Nat × Option (List Char) :=
  if atEOF ∧ data = [] then (0, none)
  else
    match findSubstr data splitDelim with
    | some i => (i + 3, some (data.take i))
    | none => if atEOF then (data.length, some data) else (0, none)

/-- Fuel-driven splitting loop (the fuel only bounds the recursion;
`scanTokens` supplies enough for it never to run out, see
`scanTokensFuel_congr`). -/
def scanTokensFuel : Nat → List Char → List (List Char)
  | 0, _ => []
  | fuel + 1, data =>
    if data = [] then []
    else
      match findSubstr data splitDelim with
      | some i => data.take i :: scanTokensFuel fuel (data.drop (i + 3))
      | none => [data]

/-- The token stream that `bufio.Scanner` produces when driving
`splitPGN` over the full input `data`: split off a record before each
delimiter occurrence, and emit the final residue when non-empty.
`scanTokens_splitPGN_step` below ties each step of this stream back to
the `splitPGN` split function itself. -/
def scanTokens (data : List Char) : List (List Char) :=
  scanTokensFuel data.length data

/-- Re-joining a token list with the delimiter, as in the spec's
round-trip property. -/
def joinDelim : List (List Char) → List Char
  | [] => []
  | [t] => t
  | t :: ts => t ++ splitDelim ++ joinDelim ts

/-! ## The annotation evaluator -/

/-- Numeric value of one decimal digit character. -/
def digitVal (c : Char) : Nat :=
  match c with
  | '0' => 0 | '1' => 1 | '2' => 2 | '3' => 3 | '4' => 4
  | '5' => 5 | '6' => 6 | '7' => 7 | '8' => 8 | '9' => 9
  | _ => 0

/-- Value of a digit string. -/
def digitsVal (l : List Char) : Nat :=
  l.foldl (fun a c => a * 10 + digitVal c) 0

/-- Exponent suffix of Go's float token: optional sign and mandatory
digits (an exponent marker with no digits makes `strconv.ParseFloat`
fail, hence `none`). -/
def goApplyExp (v : ℚ) (r : List Char) : Option ℚ :=
  let er : Bool × List Char :=
    match r with
    | '-' :: rr => (true, rr)
    | '+' :: rr => (false, rr)
    | _ => (false, r)
  let d3 := er.2.takeWhile Char.isDigit
  if d3.isEmpty then none
  else
    let e := digitsVal d3
    some (if er.1 then v / (10 : ℚ) ^ e else v * (10 : ℚ) ^ e)

/-- Model of `fmt.Sscanf(s, "%f", &v)` in the decimal regime: skip
leading spaces (newlines terminate, as in Go's `Scanf` family), scan
`[+-]? digits [. digits]? ([eE] [+-]? digits)?` and ignore trailing
characters; fail when no mantissa digit or no exponent digit is found,
as `strconv.ParseFloat` does on the scanned token.  This is the
finite-decimal regime; `goScanFloatF` below refines it with the
NaN/Inf/hex-float token paths of `fmt`'s `floatToken`. -/
def goScanFloat (s0 : List Char) : Option ℚ :=
  let s1 := s0.dropWhile (fun c => isGoSpace c && c != '\n' && c != '\r')
  let sgn : Bool × List Char :=
    match s1 with
    | '-' :: r => (true, r)
    | '+' :: r => (false, r)
    | _ => (false, s1)
  let s2 := sgn.2
  let d1 := s2.takeWhile Char.isDigit
  let s3 := s2.dropWhile Char.isDigit
  let frac : List Char × List Char :=
    match s3 with
    | '.' :: r => (r.takeWhile Char.isDigit, r.dropWhile Char.isDigit)
    | _ => ([], s3)
  let d2 := frac.1
  let s4 := frac.2
  if d1.isEmpty && d2.isEmpty then none
  else
    let mant : ℚ := (digitsVal d1 : ℚ) + (digitsVal d2 : ℚ) / (10 : ℚ) ^ d2.length
    let sgned : ℚ := if sgn.1 then -mant else mant
    match s4 with
    | 'e' :: r => goApplyExp sgned r
    | 'E' :: r => goApplyExp sgned r
    | _ => some sgned

/-- The marker `"%eval "` that `parseEval` looks for. -/
def evalKey : List Char := ['%', 'e', 'v', 'a', 'l', ' ']

/-- Model of `parseEval` from `src/acpl/acpl.go`: find the first
occurrence of `"%eval "`; absent ⇒ not present.  After the marker, a
leading `#` denotes a forced mate, `#-` giving `-1000` and any other
mate `1000`; otherwise scan a decimal number of pawns and convert to
centipawns (`× 100`).  `none` plays the role of the Go `ok = false`
result. -/
def parseEval (comment : String) : Option ℚ :=
  match findSubstr comment.data evalKey with
  | none => none
  | some i =>
    let s := comment.data.drop (i + 6)
    match s with
    | '#' :: rest =>
      match rest with
      | '-' :: _ => some (-1000)
      | _ => some 1000
    | _ => (goScanFloat s).map (· * 100)

/-! ## The parsed-game model and `computeACPL` -/

/-- What the external parser (`github.com/notnil/chess`) yields of a
game, as consumed by `computeACPL`: `TagPairs()`, `Moves()` (only the
ply count matters) and `Comments()` (one list of comment strings per
ply). -/
structure Game where
  tagPairs : List (String × String)
  moves : List String
  comments : List (List String)
deriving DecidableEq

/-- The `GameACPL` result record: a scored game (`Game` field) and its
`ACPL` value. -/
structure GameACPL where
  game : Game
  acpl : ℚ
deriving DecidableEq

/-- Model of `TagValue` from `src/acpl/acpl.go`: first matching tag
pair, empty string when absent. -/
def TagValue (g : Game) (key : String) : String :=
  match g.tagPairs.find? (fun t => t.1 == key) with
  | some t => t.2
  | none => ""

/-- The tag-extraction loop at the top of `computeACPL`: the loop
assigns on every match, so the last matching pair wins. -/
def lastTagValue (tags : List (String × String)) (key : String) : String :=
  tags.foldl (fun acc t => if t.1 == key then t.2 else acc) ""

/-- The clamping of evaluations to `[-1000, 1000]` inside
`computeACPL`'s loop. -/
def clampEval (e : ℚ) : ℚ :=
  if e > 1000 then 1000 else if e < -1000 then -1000 else e

/-- The loop state of `computeACPL`: running loss total, scored-ply
count, and the carried baseline (`prevEval`/`hasPrev`). -/
structure AcplState where
  totalLoss : ℚ
  count : Nat
  prevEval : ℚ
  hasPrev : Bool
deriving DecidableEq

/-- The state at loop entry. -/
def initAcplState : AcplState := ⟨0, 0, 0, false⟩

/-- `whiteMove := i%2 == 0`. -/
def whiteMove (i : Nat) : Bool := i % 2 == 0

/-- `playerMove := (whiteMove && isWhite) || (!whiteMove && isBlack)`. -/
def playerMove (isWhite isBlack : Bool) (i : Nat) : Bool :=
  (whiteMove i && isWhite) || (!whiteMove i && isBlack)

/-- One iteration of `computeACPL`'s ply loop at ply `i` with comment
list `anns`. -/
def acplStep (isWhite isBlack : Bool) (i : Nat) (anns : List String)
    (st : AcplState) : AcplState :=
  match anns.getLast? with
  | none => st
  | some comment =>
    match parseEval comment with
    | none => st
    | some e0 =>
      let eval := clampEval e0
      let st1 :=
        if playerMove isWhite isBlack i && st.hasPrev then
          let loss0 := st.prevEval - eval
          let loss1 := if isBlack then -loss0 else loss0
          let loss := if loss1 < 0 then 0 else loss1
          { st with totalLoss := st.totalLoss + loss, count := st.count + 1 }
        else st
      { st1 with prevEval := eval, hasPrev := true }

/-- The whole ply loop, walking the per-ply comment lists from ply
index `i`. -/
def acplWalk (isWhite isBlack : Bool) : Nat → List (List String) → AcplState → AcplState
  | _, [], st => st
  | i, anns :: rest, st =>
    acplWalk isWhite isBlack (i + 1) rest (acplStep isWhite isBlack i anns st)

/-- The tail of `computeACPL`: no scored ply ⇒ no result, otherwise
the mean loss. -/
def acplFinish (st : AcplState) : Option ℚ :=
  if st.count = 0 then none else some (st.totalLoss / (st.count : ℚ))

/-- The loop state `computeACPL` ends with: the walk runs over the
first `len(moves)` comment lists (the loop bound is
`i < len(moves) && i < len(comments)`). -/
def computeState (g : Game) (username : String) : AcplState :=
  let isWhite := eqFold (lastTagValue g.tagPairs "White") username
  let isBlack := eqFold (lastTagValue g.tagPairs "Black") username
  acplWalk isWhite isBlack 0 (g.comments.take g.moves.length) initAcplState

/-- Model of `computeACPL` from `src/acpl/acpl.go`.  `none` plays the
role of the Go `ok = false` result. -/
def computeACPL (g : Game) (username : String) : Option ℚ :=
  let isWhite := eqFold (lastTagValue g.tagPairs "White") username
  let isBlack := eqFold (lastTagValue g.tagPairs "Black") username
  if !isWhite && !isBlack then none
  else acplFinish (computeState g username)

/-! ## The ranking pass -/

/-- The `strings.TrimSpace(pgn) == ""` test of `RankByACPL`. -/
def blankRecord (s : String) : Bool := s.data.all isGoSpace

/-- The body of `RankByACPL`'s scan loop for one record: skip blank
records, records the external parser rejects, records with fewer than
`minPlies` plies, and records `computeACPL` does not score. -/
def scoreRecord (parse : String → Option Game) (username : String)
    (minPlies : Int) (pgn : String) : Option GameACPL :=
  if blankRecord pgn then none
  else
    match parse pgn with
    | none => none
    | some game =>
      if (game.moves.length : Int) < minPlies then none
      else
        match computeACPL game username with
        | none => none
        | some a => some ⟨game, a⟩

/-- The `out` slice of `RankByACPL` just before sorting: the scored
games in stream encounter order. -/
def scoredGames (parse : String → Option Game) (username : String)
    (minPlies : Int) (data : String) : List GameACPL :=
  ((scanTokens data.data).map (fun l => String.mk l)).filterMap
    (scoreRecord parse username minPlies)

/-- The comparator the code hands to `sort.Slice`, as a non-strict
order: `¬(y.ACPL < x.ACPL)`. -/
def acplLE (x y : GameACPL) : Prop := x.acpl ≤ y.acpl

instance : DecidableRel acplLE := fun x y =>
  inferInstanceAs (Decidable (x.acpl ≤ y.acpl))

instance : IsTotal GameACPL acplLE := ⟨fun a b => le_total a.acpl b.acpl⟩

instance : IsTrans GameACPL acplLE := ⟨fun _ _ _ h1 h2 => le_trans h1 h2⟩

/-- Modelled from the documented contract of Go's `sort.Slice` (which
is external library code): the output is a permutation of the input
that is sorted for the given comparator; `sort.Slice` documents that
stability is *not* guaranteed, so nothing ties the order of equal
elements to their input order. -/
def SortSliceSpec (input output : List GameACPL) : Prop :=
  output.Perm input ∧ List.Sorted acplLE output

/-- Model of `RankByACPL` from `src/acpl/acpl.go`, as a relation
between the consumed stream and the admissible results.  `data` is the
text the reader delivered before end-of-stream or failure and
`readErr` the terminal error `scanner.Err()` reports (`bufio.Scanner`
consumes all buffered records before surfacing it); the result pairs
the sorted slice with the returned error. -/
def RankByACPL (parse : String → Option Game) (username : String)
    (minPlies : Int) (data : String) (readErr : Option String)
    (res : List GameACPL × Option String) : Prop :=
  SortSliceSpec (scoredGames parse username minPlies data) res.1 ∧
  res.2 = readErr

/-! ## Claim-side definitions -/

/-- The behaviour `computeACPL`'s loop body actually has when the
username matches both tags (self-play): `playerMove` is true on every
ply and the `isBlack` branch negates the loss, so every annotated ply
with a baseline is scored from Black's perspective
(`loss = eval − baseline`, clamped at `0`). -/
def selfStep (anns : List String) (st : AcplState) : AcplState :=
  match anns.getLast? with
  | none => st
  | some comment =>
    match parseEval comment with
    | none => st
    | some e0 =>
      let eval := clampEval e0
      let st1 :=
        if st.hasPrev then
          let loss1 := eval - st.prevEval
          let loss := if loss1 < 0 then 0 else loss1
          { st with totalLoss := st.totalLoss + loss, count := st.count + 1 }
        else st
      { st1 with prevEval := eval, hasPrev := true }

/-! ## Concrete instances used by counterexamples and witnesses -/

/-- A self-play game: both tags name player `a`; plies evaluated at
`100` and `300` centipawns. -/
def gameSelf : Game :=
  ⟨[("White", "a"), ("Black", "a")], ["e4", "e5"], [["[%eval 1]"], ["[%eval 3]"]]⟩

/-- Scored game for `alice` (3 plies, evaluations 100, 50, 50; her
ply 2 loses `50 − 50 = 0`, so ACPL 0). -/
def gA : Game := ⟨[("White", "alice"), ("Black", "b1")], ["e4", "e5", "Nf3"],
  [["[%eval 1]"], ["[%eval 0.5]"], ["[%eval 0.5]"]]⟩

/-- Second game with ACPL 0 for `alice` (evaluations 200, 50, 50). -/
def gB : Game := ⟨[("White", "alice"), ("Black", "b2")], ["e4", "e5", "Nf3"],
  [["[%eval 2]"], ["[%eval 0.5]"], ["[%eval 0.5]"]]⟩

/-- Game with ACPL 100 for `alice` (evaluations 300, 100, 0). -/
def gC : Game := ⟨[("White", "alice"), ("Black", "b3")], ["e4", "e5", "Nf3"],
  [["[%eval 3]"], ["[%eval 1]"], ["[%eval 0]"]]⟩

/-- The scored entries of `gA`, `gB`, `gC`. -/
def entryA : GameACPL := ⟨gA, 0⟩

/-- See `entryA`. -/
def entryB : GameACPL := ⟨gB, 0⟩

/-- See `entryA`. -/
def entryC : GameACPL := ⟨gC, 100⟩

/-- Record texts of a three-record stream. -/
def recA : String := "g1"

/-- See `recA`. -/
def recB : String := "g2"

/-- See `recA`. -/
def recC : String := "g3"

/-- The three-record stream `recA`, `recB`, `recC`. -/
def dataC2 : String := recA ++ "\n\n\n" ++ recB ++ "\n\n\n" ++ recC

/-- A parser instance for the three-record stream. -/
def parseC2 : String → Option Game := fun s =>
  if s = recA then some gA
  else if s = recB then some gB
  else if s = recC then some gC
  else none

/-- The game of the end-to-end scenario: tags `White=alice`,
`Black=bob`, three plies annotated `[%eval 0.2]`, `[%eval -1.8]`,
`[%eval 0.1]`. -/
def game4 : Game :=
  ⟨[("White", "alice"), ("Black", "bob")], ["e4", "e5", "Nf3"],
   [["[%eval 0.2]"], ["[%eval -1.8]"], ["[%eval 0.1]"]]⟩

/-- Record text of `game4`. -/
def rec4a : String :=
  "[White \"alice\"]\n[Black \"bob\"]\n\n1. e4 { [%eval 0.2] } e5 { [%eval -1.8] } 2. Nf3 { [%eval 0.1] }"

/-- Second record of the end-to-end scenario (a game without `alice`). -/
def rec4b : String := "[White \"carol\"]\n[Black \"dan\"]\n\n1. d4 d5"

/-- The two-record stream of the end-to-end scenario, separated by
`"\n\n\n"`. -/
def data4 : String := rec4a ++ "\n\n\n" ++ rec4b

/-- A parser instance for the end-to-end scenario. -/
def parse4 : String → Option Game := fun s =>
  if s = rec4a then some game4
  else if s = rec4b then
    some (⟨[("White", "carol"), ("Black", "dan")], ["d4", "d5"], []⟩ : Game)
  else none

/-! ## The IEEE-special-value refinement

The definitions above model `float64` values by exact rationals, which
is adequate for every claim about finite evaluations.  One claim
concerns the IEEE special values themselves: `fmt.Sscanf %f` also
accepts `NaN` and `±Inf` tokens (and Go hex-float literals), and a NaN
evaluation passes through the clamp and the loss floor — both
comparisons are false for NaN — all the way into the returned ACPL.
`GoFloat` and the `…F` definitions below refine the evaluator and the
scorer over the full value domain `{NaN, ±∞} ∪ ℚ`; the finite
(rational) definitions above are the restriction of these to streams
without special tokens.  (Digit-separating underscores in numerals,
which only denote other finite values, remain outside both models, as
does overflow of finite arithmetic to infinity, which would need loss
totals beyond 10^300.) -/

/-- A `float64` value as far as this code can observe it: NaN, a
signed infinity (`inf true` is `-∞`), or a finite value modelled
exactly. -/
inductive GoFloat where
  | nan : GoFloat
  | inf : Bool → GoFloat
  | fin : ℚ → GoFloat
deriving DecidableEq

/-- IEEE `<` on `GoFloat`: false whenever either side is NaN. -/
def gfLt : GoFloat → GoFloat → Bool
  | .nan, _ => false
  | _, .nan => false
  | .inf true, .inf true => false
  | .inf true, .inf false => true
  | .inf true, .fin _ => true
  | .inf false, _ => false
  | .fin _, .inf false => true
  | .fin _, .inf true => false
  | .fin a, .fin b => decide (a < b)

/-- IEEE negation. -/
def gfNeg : GoFloat → GoFloat
  | .nan => .nan
  | .inf s => .inf !s
  | .fin a => .fin (-a)

/-- IEEE addition (`∞ + (-∞) = NaN`). -/
def gfAdd : GoFloat → GoFloat → GoFloat
  | .nan, _ => .nan
  | _, .nan => .nan
  | .inf s, .inf t => if s == t then .inf s else .nan
  | .inf s, .fin _ => .inf s
  | .fin _, .inf t => .inf t
  | .fin a, .fin b => .fin (a + b)

/-- IEEE subtraction (`∞ - ∞ = NaN`). -/
def gfSub : GoFloat → GoFloat → GoFloat
  | .nan, _ => .nan
  | _, .nan => .nan
  | .inf s, .inf t => if s == t then .nan else .inf s
  | .inf s, .fin _ => .inf s
  | .fin _, .inf t => .inf !t
  | .fin a, .fin b => .fin (a - b)

/-- The `v * 100` centipawn scaling on `GoFloat` (100 is positive and
finite, so signs and specials are preserved). -/
def gfMul100 : GoFloat → GoFloat
  | .nan => .nan
  | .inf s => .inf s
  | .fin q => .fin (q * 100)

/-- IEEE division by `float64(n)` for a `Nat` count (`n = 0` follows
the IEEE zero-divisor rules; the code only divides by a count that was
checked non-zero). -/
def gfDivNat (v : GoFloat) (n : Nat) : GoFloat :=
  match v with
  | .nan => .nan
  | .inf s => .inf s
  | .fin q =>
    if n = 0 then (if q = 0 then .nan else .inf (decide (q < 0)))
    else .fin (q / (n : ℚ))

/-- Does the text begin with a (case-insensitive) `nan` token?
`fmt`'s `floatToken` checks this before anything else. -/
def isNanPre (l : List Char) : Bool :=
  match l with
  | n1 :: a1 :: n2 :: _ =>
    (n1 == 'n' || n1 == 'N') && (a1 == 'a' || a1 == 'A') && (n2 == 'n' || n2 == 'N')
  | _ => false

/-- Does the text (after the optional sign) begin with a
(case-insensitive) `inf` token? -/
def isInfPre (l : List Char) : Bool :=
  match l with
  | i1 :: n1 :: f1 :: _ =>
    (i1 == 'i' || i1 == 'I') && (n1 == 'n' || n1 == 'N') && (f1 == 'f' || f1 == 'F')
  | _ => false

/-- Does the text (after the optional sign) begin with the `0x` / `0X`
hex-float marker? -/
def isHexPre (l : List Char) : Bool :=
  match l with
  | '0' :: c :: _ => c == 'x' || c == 'X'
  | _ => false

/-- Hexadecimal digit predicate of Go's scanner. -/
def isHexDigitGo (c : Char) : Bool :=
  c.isDigit || ('a' ≤ c ∧ c ≤ 'f') || ('A' ≤ c ∧ c ≤ 'F')

/-- Value of one hexadecimal digit character. -/
def hexDigitVal (c : Char) : Nat :=
  match c with
  | '0' => 0 | '1' => 1 | '2' => 2 | '3' => 3 | '4' => 4
  | '5' => 5 | '6' => 6 | '7' => 7 | '8' => 8 | '9' => 9
  | 'a' | 'A' => 10 | 'b' | 'B' => 11 | 'c' | 'C' => 12
  | 'd' | 'D' => 13 | 'e' | 'E' => 14 | 'f' | 'F' => 15
  | _ => 0

/-- Value of a hex digit string. -/
def hexVal (l : List Char) : Nat :=
  l.foldl (fun a c => a * 16 + hexDigitVal c) 0

/-- Binary exponent suffix of a Go hex-float: optional sign and
mandatory decimal digits.  `fmt`'s tokenizer consumes hex digits here,
so a non-decimal digit in the scanned run makes `strconv.ParseFloat`
reject the whole token. -/
def goApplyExpHex (v : ℚ) (r : List Char) : Option ℚ :=
  let er : Bool × List Char :=
    match r with
    | '-' :: rr => (true, rr)
    | '+' :: rr => (false, rr)
    | _ => (false, r)
  let d3 := er.2.takeWhile isHexDigitGo
  if d3.isEmpty || !d3.all Char.isDigit then none
  else
    let e := digitsVal d3
    some (if er.1 then v / (2 : ℚ) ^ e else v * (2 : ℚ) ^ e)

/-- Mantissa-and-exponent scan of a Go hex-float, for the text after
the `0x` marker: hex digits, optional point and hex digits, then a
mandatory `p`/`P` binary exponent (`strconv.ParseFloat` rejects a
hex-float without one). -/
def goScanHex (s : List Char) : Option ℚ :=
  let d1 := s.takeWhile isHexDigitGo
  let s3 := s.dropWhile isHexDigitGo
  let frac : List Char × List Char :=
    match s3 with
    | '.' :: r => (r.takeWhile isHexDigitGo, r.dropWhile isHexDigitGo)
    | _ => ([], s3)
  let d2 := frac.1
  let s4 := frac.2
  if d1.isEmpty && d2.isEmpty then none
  else
    let mant : ℚ := (hexVal d1 : ℚ) + (hexVal d2 : ℚ) / (16 : ℚ) ^ d2.length
    match s4 with
    | 'p' :: r => goApplyExpHex mant r
    | 'P' :: r => goApplyExpHex mant r
    | _ => none

/-- Full model of `fmt.Sscanf(s, "%f", &v)`, refining `goScanFloat`
with the special tokens of `fmt`'s `floatToken`: a leading
case-insensitive `nan` gives NaN; after the optional sign, a
case-insensitive `inf` gives a signed infinity and a `0x`/`0X` marker
switches to hex-float scanning; every other input — including the
partial special prefixes that `floatToken` consumes and
`strconv.ParseFloat` then rejects, which contain no leading digit —
scans exactly as the decimal `goScanFloat` does. -/
def goScanFloatF (s0 : List Char) : Option GoFloat :=
  let s1 := s0.dropWhile (fun c => isGoSpace c && c != '\n' && c != '\r')
  if isNanPre s1 then some GoFloat.nan
  else
    let sgn : Bool × List Char :=
      match s1 with
      | '-' :: r => (true, r)
      | '+' :: r => (false, r)
      | _ => (false, s1)
    if isInfPre sgn.2 then some (GoFloat.inf sgn.1)
    else if isHexPre sgn.2 then
      (goScanHex (sgn.2.drop 2)).map
        (fun q => GoFloat.fin (if sgn.1 then -q else q))
    else (goScanFloat s0).map GoFloat.fin

/-- `parseEval` over the full value domain: identical to `parseEval`
except that the numeric branch scans with `goScanFloatF`. -/
def parseEvalF (comment : String) : Option GoFloat :=
  match findSubstr comment.data evalKey with
  | none => none
  | some i =>
    let s := comment.data.drop (i + 6)
    match s with
    | '#' :: rest =>
      match rest with
      | '-' :: _ => some (GoFloat.fin (-1000))
      | _ => some (GoFloat.fin 1000)
    | _ => (goScanFloatF s).map gfMul100

/-- The clamp over the full value domain, with IEEE comparisons:
`eval > 1000` and `eval < -1000` are both false for NaN, so NaN passes
through unclamped; infinities clamp to the boundaries. -/
def clampEvalF (e : GoFloat) : GoFloat :=
  if gfLt (GoFloat.fin 1000) e then GoFloat.fin 1000
  else if gfLt e (GoFloat.fin (-1000)) then GoFloat.fin (-1000)
  else e

/-- `computeACPL`'s loop state over the full value domain. -/
structure AcplStateF where
  totalLoss : GoFloat
  count : Nat
  prevEval : GoFloat
  hasPrev : Bool
deriving DecidableEq

/-- The state at loop entry. -/
def initAcplStateF : AcplStateF := ⟨GoFloat.fin 0, 0, GoFloat.fin 0, false⟩

/-- One iteration of `computeACPL`'s ply loop over the full value
domain: same structure as `acplStep`, with IEEE comparisons — in
particular `loss < 0` is false for a NaN loss, so the floor does not
repair it and NaN accumulates into the total. -/
def acplStepF (isWhite isBlack : Bool) (i : Nat) (anns : List String)
    (st : AcplStateF) : AcplStateF :=
  match anns.getLast? with
  | none => st
  | some comment =>
    match parseEvalF comment with
    | none => st
    | some e0 =>
      let eval := clampEvalF e0
      let st1 :=
        if playerMove isWhite isBlack i && st.hasPrev then
          let loss0 := gfSub st.prevEval eval
          let loss1 := if isBlack then gfNeg loss0 else loss0
          let loss := if gfLt loss1 (GoFloat.fin 0) then GoFloat.fin 0 else loss1
          { st with totalLoss := gfAdd st.totalLoss loss, count := st.count + 1 }
        else st
      { st1 with prevEval := eval, hasPrev := true }

/-- The whole ply loop over the full value domain. -/
def acplWalkF (isWhite isBlack : Bool) : Nat → List (List String) → AcplStateF → AcplStateF
  | _, [], st => st
  | i, anns :: rest, st =>
    acplWalkF isWhite isBlack (i + 1) rest (acplStepF isWhite isBlack i anns st)

/-- The tail of `computeACPL` over the full value domain. -/
def acplFinishF (st : AcplStateF) : Option GoFloat :=
  if st.count = 0 then none else some (gfDivNat st.totalLoss st.count)

/-- The loop state `computeACPL` ends with, over the full value
domain. -/
def computeStateF (g : Game) (username : String) : AcplStateF :=
  let isWhite := eqFold (lastTagValue g.tagPairs "White") username
  let isBlack := eqFold (lastTagValue g.tagPairs "Black") username
  acplWalkF isWhite isBlack 0 (g.comments.take g.moves.length) initAcplStateF

/-- `computeACPL` over the full value domain. -/
def computeACPLF (g : Game) (username : String) : Option GoFloat :=
  let isWhite := eqFold (lastTagValue g.tagPairs "White") username
  let isBlack := eqFold (lastTagValue g.tagPairs "Black") username
  if !isWhite && !isBlack then none
  else acplFinishF (computeStateF g username)

/-- The `GameACPL` record over the full value domain. -/
structure GameACPLF where
  game : Game
  acpl : GoFloat
deriving DecidableEq

/-- The scan-loop body for one record, over the full value domain. -/
def scoreRecordF (parse : String → Option Game) (username : String)
    (minPlies : Int) (pgn : String) : Option GameACPLF :=
  if blankRecord pgn then none
  else
    match parse pgn with
    | none => none
    | some game =>
      if (game.moves.length : Int) < minPlies then none
      else
        match computeACPLF game username with
        | none => none
        | some a => some ⟨game, a⟩

/-- The `out` slice before sorting, over the full value domain. -/
def scoredGamesF (parse : String → Option Game) (username : String)
    (minPlies : Int) (data : String) : List GameACPLF :=
  ((scanTokens data.data).map (fun l => String.mk l)).filterMap
    (scoreRecordF parse username minPlies)

/-- `RankByACPL` over the full value domain.  With NaN values present
the comparator handed to `sort.Slice` is not a strict weak order, and
the library then promises nothing beyond rearranging the slice, so
only the permutation part of the `sort.Slice` contract is modelled
here; this only widens the set of admissible results, which is the
safe direction for the universal claims proved about it. -/
def RankByACPLF (parse : String → Option Game) (username : String)
    (minPlies : Int) (data : String) (readErr : Option String)
    (res : List GameACPLF × Option String) : Prop :=
  res.1.Perm (scoredGamesF parse username minPlies data) ∧
  res.2 = readErr

/-- A game whose first ply carries a `[%eval nan]` annotation — a
token `fmt.Sscanf %f` accepts — and whose second ply (Black `alice`'s
move) is then scored against the NaN baseline. -/
def gNan : Game :=
  ⟨[("White", "x1"), ("Black", "alice")], ["e4", "e5"],
   [["[%eval nan]"], ["[%eval 0]"]]⟩

/-- Record text of `gNan`. -/
def recNan : String := "gN"

/-- A single-record stream for `gNan`. -/
def dataNan : String := recNan

/-- A parser instance for the NaN stream. -/
def parseNan : String → Option Game := fun s =>
  if s = recNan then some gNan else none

/-! ## Lemmas about the splitter -/

theorem findSubstr_some_spec {s pat : List Char} {i : Nat}
    (h : findSubstr s pat = some i) :
    i + pat.length ≤ s.length ∧ s.drop i = pat ++ s.drop (i + pat.length) := by
  induction s generalizing i with
  | nil =>
    simp only [findSubstr] at h
    split at h
    · next hp =>
      cases h
      simp_all [List.isEmpty_iff]
    · cases h
  | cons c rest ih =>
    simp only [findSubstr] at h
    split at h
    · next hp =>
      cases h
      rcases List.isPrefixOf_iff_prefix.mp hp with ⟨t, ht⟩
      constructor
      · have := congrArg List.length ht
        simp at this
        simp [← this]
      · simp only [Nat.zero_add, List.drop_zero]
        rw [← ht]
        simp
    · rcases Option.map_eq_some'.mp h with ⟨j, hj, rfl⟩
      rcases ih hj with ⟨h1, h2⟩
      constructor
      · simp only [List.length_cons]
        omega
      · rw [List.drop_succ_cons, show j + 1 + pat.length = (j + pat.length) + 1 by omega,
          List.drop_succ_cons]
        exact h2

theorem findSubstr_delim_nil : findSubstr [] splitDelim = none := by decide

theorem scanTokensFuel_congr :
    ∀ (f1 f2 : Nat) (d : List Char), d.length ≤ f1 → d.length ≤ f2 →
      scanTokensFuel f1 d = scanTokensFuel f2 d := by
  intro f1
  induction f1 with
  | zero =>
    intro f2 d h1 _
    have hd : d = [] := List.length_eq_zero.mp (Nat.le_zero.mp h1)
    subst hd
    cases f2 with
    | zero => rfl
    | succ g => simp [scanTokensFuel]
  | succ f ih =>
    intro f2 d h1 h2
    cases f2 with
    | zero =>
      have hd : d = [] := List.length_eq_zero.mp (Nat.le_zero.mp h2)
      subst hd
      simp [scanTokensFuel]
    | succ g =>
      by_cases hd : d = []
      · subst hd
        simp [scanTokensFuel]
      · simp only [scanTokensFuel, hd, if_false]
        rcases hf : findSubstr d splitDelim with _ | i
        · rfl
        · have hb := (findSubstr_some_spec hf).1
          simp only [splitDelim, List.length] at hb
          have hlen : (d.drop (i + 3)).length ≤ f := by
            simp only [List.length_drop]
            omega
          have hlen2 : (d.drop (i + 3)).length ≤ g := by
            simp only [List.length_drop]
            omega
          show d.take i :: scanTokensFuel f (d.drop (i + 3)) =
            d.take i :: scanTokensFuel g (d.drop (i + 3))
          rw [ih g _ hlen hlen2]

theorem scanTokens_nil : scanTokens [] = [] := rfl

theorem scanTokens_delim {data : List Char} {i : Nat}
    (h : findSubstr data splitDelim = some i) :
    scanTokens data = data.take i :: scanTokens (data.drop (i + 3)) := by
  have hd : data ≠ [] := by
    intro hnil
    rw [hnil, findSubstr_delim_nil] at h
    cases h
  have hb := (findSubstr_some_spec h).1
  simp only [splitDelim, List.length] at hb
  obtain ⟨n, hn⟩ : ∃ n, data.length = n + 1 := by
    cases hl : data.length with
    | zero => exact absurd (List.length_eq_zero.mp hl) hd
    | succ n => exact ⟨n, rfl⟩
  unfold scanTokens
  rw [hn]
  simp only [scanTokensFuel, hd, if_false, h]
  rw [scanTokensFuel_congr n (data.drop (i + 3)).length (data.drop (i + 3))
    (by simp only [List.length_drop]; omega) (le_refl _)]

theorem scanTokens_last {data : List Char}
    (hd : data ≠ []) (h : findSubstr data splitDelim = none) :
    scanTokens data = [data] := by
  obtain ⟨n, hn⟩ : ∃ n, data.length = n + 1 := by
    cases hl : data.length with
    | zero => exact absurd (List.length_eq_zero.mp hl) hd
    | succ n => exact ⟨n, rfl⟩
  unfold scanTokens
  rw [hn]
  simp only [scanTokensFuel, hd, if_false, h]

theorem splitPGN_advance {data : List Char} {adv : Nat} {tok : List Char}
    (h : splitPGN data true = (adv, some tok)) :
    0 < adv ∧ adv ≤ data.length ∧ data ≠ [] := by
  by_cases hd : data = []
  · simp [splitPGN, hd] at h
  · rcases hf : findSubstr data splitDelim with _ | i
    · simp only [splitPGN, hd, and_false, if_false, hf, if_true] at h
      cases h
      refine ⟨?_, Nat.le_refl _, hd⟩
      cases data with
      | nil => exact absurd rfl hd
      | cons c r => simp
    · simp only [splitPGN, hd, and_false, if_false, hf] at h
      cases h
      have := (findSubstr_some_spec hf).1
      simp only [splitDelim, List.length] at this
      exact ⟨Nat.succ_pos _, by omega, hd⟩

theorem scanTokens_splitPGN_step (data : List Char) :
    scanTokens data =
      match splitPGN data true with
      | (_, none) => []
      | (adv, some tok) => tok :: scanTokens (data.drop adv) := by
  by_cases hd : data = []
  · subst hd
    simp [scanTokens_nil, splitPGN]
  · rcases hf : findSubstr data splitDelim with _ | i
    · rw [scanTokens_last hd hf]
      simp only [splitPGN, hd, and_false, if_false, hf, if_true]
      rw [List.drop_length, scanTokens_nil]
    · rw [scanTokens_delim hf]
      simp only [splitPGN, hd, and_false, if_false, hf]

theorem scanTokens_ne_nil {data : List Char} (hd : data ≠ []) :
    scanTokens data ≠ [] := by
  rcases hf : findSubstr data splitDelim with _ | i
  · rw [scanTokens_last hd hf]; simp
  · rw [scanTokens_delim hf]; simp

theorem scanTokens_roundTrip (data : List Char) :
    joinDelim (scanTokens data) = data ∨
    joinDelim (scanTokens data) ++ splitDelim = data := by
  suffices H : ∀ (n : Nat) (d : List Char), d.length ≤ n →
      joinDelim (scanTokens d) = d ∨ joinDelim (scanTokens d) ++ splitDelim = d by
    exact H data.length data le_rfl
  intro n
  induction n with
  | zero =>
    intro d hlen
    have hd : d = [] := List.length_eq_zero.mp (Nat.le_zero.mp hlen)
    subst hd
    left
    simp [scanTokens_nil, joinDelim]
  | succ n ih =>
    intro d hlen
    by_cases hd : d = []
    · subst hd
      left
      simp [scanTokens_nil, joinDelim]
    · rcases hf : findSubstr d splitDelim with _ | i
      · left
        rw [scanTokens_last hd hf]
        simp [joinDelim]
      · have hspec := findSubstr_some_spec hf
        have hdec : d = d.take i ++ splitDelim ++ d.drop (i + 3) := by
          conv_lhs => rw [← List.take_append_drop i d]
          rw [hspec.2]
          simp [splitDelim, List.append_assoc]
        rw [scanTokens_delim hf]
        have hlen' : (d.drop (i + 3)).length ≤ n := by
          simp only [List.length_drop]
          have := hspec.1
          simp only [splitDelim, List.length] at this
          omega
        by_cases hrest : d.drop (i + 3) = []
        · right
          rw [hrest, scanTokens_nil]
          show d.take i ++ splitDelim = d
          conv_rhs => rw [hdec, hrest]
          simp
        · rcases ih (d.drop (i + 3)) hlen' with hih | hih
          · left
            have hne := scanTokens_ne_nil hrest
            rcases hts : scanTokens (d.drop (i + 3)) with _ | ⟨t, ts⟩
            · exact absurd hts hne
            · show d.take i ++ splitDelim ++ joinDelim (t :: ts) = d
              rw [← hts, hih]
              exact hdec.symm
          · right
            have hne := scanTokens_ne_nil hrest
            rcases hts : scanTokens (d.drop (i + 3)) with _ | ⟨t, ts⟩
            · exact absurd hts hne
            · show d.take i ++ splitDelim ++ joinDelim (t :: ts) ++ splitDelim = d
              rw [← hts]
              conv_rhs => rw [hdec]
              rw [List.append_assoc, List.append_assoc, hih, ← List.append_assoc]

/-! ## Lemmas about scoring -/

theorem stringMk_data (s : String) : String.mk s.data = s := rfl

theorem acplStep_totalLoss_le (isWhite isBlack : Bool) (i : Nat)
    (anns : List String) (st : AcplState) :
    st.totalLoss ≤ (acplStep isWhite isBlack i anns st).totalLoss := by
  rcases hg : anns.getLast? with _ | c
  · simp only [acplStep, hg]
    exact le_refl _
  · rcases hp : parseEval c with _ | e
    · simp only [acplStep, hg, hp]
      exact le_refl _
    · by_cases hpm : (playerMove isWhite isBlack i && st.hasPrev) = true
      · simp only [acplStep, hg, hp, hpm, if_true]
        have h0 : (0 : ℚ) ≤
            (if (if isBlack = true then -(st.prevEval - clampEval e)
                 else st.prevEval - clampEval e) < 0 then (0 : ℚ)
             else if isBlack = true then -(st.prevEval - clampEval e)
                  else st.prevEval - clampEval e) := by
          by_cases h : (if isBlack = true then -(st.prevEval - clampEval e)
              else st.prevEval - clampEval e) < 0
          · rw [if_pos h]
          · rw [if_neg h]
            exact le_of_not_lt h
        linarith
      · simp only [acplStep, hg, hp, hpm, if_false]
        exact le_refl _

theorem acplWalk_totalLoss_le (isWhite isBlack : Bool) (l : List (List String)) :
    ∀ (i : Nat) (st : AcplState),
      st.totalLoss ≤ (acplWalk isWhite isBlack i l st).totalLoss := by
  induction l with
  | nil => intro i st; exact le_refl _
  | cons anns rest ih =>
    intro i st
    exact le_trans (acplStep_totalLoss_le isWhite isBlack i anns st)
      (ih (i + 1) (acplStep isWhite isBlack i anns st))

theorem computeACPL_eq_some {g : Game} {u : String} {a : ℚ}
    (h : computeACPL g u = some a) :
    a = (computeState g u).totalLoss / ((computeState g u).count : ℚ) ∧
    1 ≤ (computeState g u).count := by
  cases hb : (!eqFold (lastTagValue g.tagPairs "White") u &&
      !eqFold (lastTagValue g.tagPairs "Black") u) with
  | true =>
    simp only [computeACPL, hb, if_true] at h
    cases h
  | false =>
    simp only [computeACPL, hb, Bool.false_eq_true, if_false] at h
    unfold acplFinish at h
    split at h
    · cases h
    · next hc =>
      cases h
      exact ⟨rfl, Nat.one_le_iff_ne_zero.mpr hc⟩

theorem computeACPL_nonneg {g : Game} {u : String} {a : ℚ}
    (h : computeACPL g u = some a) : 0 ≤ a := by
  rcases computeACPL_eq_some h with ⟨ha, _⟩
  subst ha
  apply div_nonneg
  · have := acplWalk_totalLoss_le
      (eqFold (lastTagValue g.tagPairs "White") u)
      (eqFold (lastTagValue g.tagPairs "Black") u)
      (g.comments.take g.moves.length) 0 initAcplState
    simpa [computeState, initAcplState] using this
  · exact Nat.cast_nonneg _

theorem scoreRecord_mem_acpl {parse : String → Option Game} {u : String}
    {mp : Int} {pgn : String} {e : GameACPL}
    (h : scoreRecord parse u mp pgn = some e) :
    computeACPL e.game u = some e.acpl := by
  unfold scoreRecord at h
  split at h
  · cases h
  · rcases hpp : parse pgn with _ | g
    · rw [hpp] at h; cases h
    · rw [hpp] at h
      simp only at h
      split at h
      · cases h
      · rcases hc : computeACPL g u with _ | a
        · rw [hc] at h; cases h
        · rw [hc] at h
          cases h
          exact hc

/-! ## Concrete computations -/

set_option maxRecDepth 10000 in
theorem scanTokens_dataC2 : scanTokens dataC2.data = [recA.data, recB.data, recC.data] := by
  decide

theorem scoreRecord_recA : scoreRecord parseC2 "alice" 0 recA = some entryA := by
  norm_num +decide [scoreRecord, blankRecord, parseC2, recA, recB, recC, isGoSpace, entryA,
    computeACPL, computeState, acplWalk, acplStep, acplFinish, initAcplState, clampEval,
    playerMove, whiteMove, eqFold, lowerASCII, lastTagValue, gA, parseEval, goScanFloat,
    goApplyExp, findSubstr, evalKey, digitsVal, digitVal, List.isPrefixOf]

theorem scoreRecord_recB : scoreRecord parseC2 "alice" 0 recB = some entryB := by
  norm_num +decide [scoreRecord, blankRecord, parseC2, recA, recB, recC, isGoSpace, entryB,
    computeACPL, computeState, acplWalk, acplStep, acplFinish, initAcplState, clampEval,
    playerMove, whiteMove, eqFold, lowerASCII, lastTagValue, gB, parseEval, goScanFloat,
    goApplyExp, findSubstr, evalKey, digitsVal, digitVal, List.isPrefixOf]

theorem scoreRecord_recC : scoreRecord parseC2 "alice" 0 recC = some entryC := by
  norm_num +decide [scoreRecord, blankRecord, parseC2, recA, recB, recC, isGoSpace, entryC,
    computeACPL, computeState, acplWalk, acplStep, acplFinish, initAcplState, clampEval,
    playerMove, whiteMove, eqFold, lowerASCII, lastTagValue, gC, parseEval, goScanFloat,
    goApplyExp, findSubstr, evalKey, digitsVal, digitVal, List.isPrefixOf]

theorem scoredGames_C2 : scoredGames parseC2 "alice" 0 dataC2 = [entryA, entryB, entryC] := by
  unfold scoredGames
  rw [scanTokens_dataC2]
  simp only [List.map_cons, List.map_nil, stringMk_data]
  simp only [List.filterMap_cons, scoreRecord_recA, scoreRecord_recB, scoreRecord_recC,
    List.filterMap_nil]

theorem sorted_ABC : List.Sorted acplLE [entryA, entryB, entryC] := by
  decide

theorem sorted_BAC : List.Sorted acplLE [entryB, entryA, entryC] := by
  decide

theorem entryAB_ne : entryA ≠ entryB := by decide

set_option maxRecDepth 10000 in
theorem scanTokens_data4 : scanTokens data4.data = [rec4a.data, rec4b.data] := by
  decide

theorem scoreRecord_rec4a : scoreRecord parse4 "alice" 0 rec4a = some ⟨game4, 0⟩ := by
  norm_num +decide [scoreRecord, blankRecord, parse4, rec4a, rec4b, isGoSpace,
    computeACPL, computeState, acplWalk, acplStep, acplFinish, initAcplState, clampEval,
    playerMove, whiteMove, eqFold, lowerASCII, lastTagValue, game4, parseEval, goScanFloat,
    goApplyExp, findSubstr, evalKey, digitsVal, digitVal, List.isPrefixOf]

theorem scoreRecord_rec4b : scoreRecord parse4 "alice" 0 rec4b = none := by
  norm_num +decide [scoreRecord, blankRecord, parse4, rec4a, rec4b, isGoSpace,
    computeACPL, computeState, acplWalk, acplStep, acplFinish, initAcplState, clampEval,
    playerMove, whiteMove, eqFold, lowerASCII, lastTagValue, parseEval, goScanFloat,
    goApplyExp, findSubstr, evalKey, digitsVal, digitVal, List.isPrefixOf]

theorem scoredGames_C4 : scoredGames parse4 "alice" 0 data4 = [⟨game4, 0⟩] := by
  unfold scoredGames
  rw [scanTokens_data4]
  simp only [List.map_cons, List.map_nil, stringMk_data]
  simp only [List.filterMap_cons, scoreRecord_rec4a, scoreRecord_rec4b, List.filterMap_nil]

theorem computeACPL_gameSelf : computeACPL gameSelf "a" = some 200 := by
  norm_num +decide [computeACPL, computeState, acplWalk, acplStep, acplFinish,
    initAcplState, clampEval, playerMove, whiteMove, eqFold, lowerASCII, lastTagValue,
    gameSelf, parseEval, goScanFloat, goApplyExp, findSubstr, evalKey, digitsVal, digitVal,
    isGoSpace, List.isPrefixOf]

theorem whiteOnlyWalk_gameSelf :
    acplFinish (acplWalk true false 0 (gameSelf.comments.take gameSelf.moves.length)
      initAcplState) = none := by
  norm_num +decide [acplWalk, acplStep, acplFinish, initAcplState, clampEval,
    playerMove, whiteMove, gameSelf, parseEval, goScanFloat, goApplyExp, findSubstr,
    evalKey, digitsVal, digitVal, isGoSpace, List.isPrefixOf]

theorem computeState_game4_count : (computeState game4 "alice").count = 1 := by
  norm_num +decide [computeState, acplWalk, acplStep, initAcplState, clampEval,
    playerMove, whiteMove, eqFold, lowerASCII, lastTagValue, game4, parseEval, goScanFloat,
    goApplyExp, findSubstr, evalKey, digitsVal, digitVal, isGoSpace, List.isPrefixOf]

theorem computeACPL_game4 : computeACPL game4 "alice" = some 0 := by
  norm_num +decide [computeACPL, computeState, acplWalk, acplStep, acplFinish,
    initAcplState, clampEval, playerMove, whiteMove, eqFold, lowerASCII, lastTagValue,
    game4, parseEval, goScanFloat, goApplyExp, findSubstr, evalKey, digitsVal, digitVal,
    isGoSpace, List.isPrefixOf]

/-! ## Helper lemmas for the claims -/

theorem acplStep_selfplay (i : Nat) (anns : List String) (st : AcplState) :
    acplStep true true i anns st = selfStep anns st := by
  rcases hg : anns.getLast? with _ | c
  · simp [acplStep, selfStep, hg]
  · rcases hp : parseEval c with _ | e
    · simp [acplStep, selfStep, hg, hp]
    · have hpm : playerMove true true i = true := by
        cases hw : whiteMove i <;> simp [playerMove, hw]
      simp only [acplStep, selfStep, hg, hp, hpm, Bool.true_and]
      cases hsp : st.hasPrev with
      | false => simp
      | true =>
        simp only [if_true]
        rw [neg_sub]

/-! ## Claim C1 -/

/-- C1 (amended): the queried username is compared case-insensitively
against the White and Black tag values; a record matching neither is
excluded (`computeACPL` returns no result); but when the username
matches *both* tags (self-play) the loop body treats every ply as the
player's move and normalizes losses from Black's perspective
(`selfStep`), rather than scoring as White on even plies only. -/
theorem claimC1_player_identity :
    (∀ (g : Game) (u : String),
      eqFold (lastTagValue g.tagPairs "White") u = false →
      eqFold (lastTagValue g.tagPairs "Black") u = false →
      computeACPL g u = none)
  ∧ (∀ (i : Nat) (anns : List String) (st : AcplState),
      acplStep true true i anns st = selfStep anns st) := by
  constructor
  · intro g u h1 h2
    simp [computeACPL, h1, h2]
  · exact acplStep_selfplay

/-- Witness for `claimC1_player_identity` at concrete inputs. -/
theorem claimC1_player_identity_witness :
    computeACPL gA "nobody" = none ∧
    acplStep true true 1 [] initAcplState = selfStep [] initAcplState :=
  ⟨claimC1_player_identity.1 gA "nobody" (by decide) (by decide),
   claimC1_player_identity.2 1 [] initAcplState⟩

/-- C1 counterexample: `gameSelf` is a self-play game (both tags are
`a`, evaluations 100 then 300).  Scoring it "as White, even plies
only" — the walk with `isWhite = true`, `isBlack = false` — scores no
ply (ply 0 has no baseline) and yields no result, but `computeACPL`
returns ACPL 200: the code also scores ply 1 (Black's move) and
negates the loss (`300 − 100 = 200` from Black's perspective). -/
theorem claimC1_selfplay_counterexample :
    computeACPL gameSelf "a" = some 200 ∧
    acplFinish (acplWalk true false 0 (gameSelf.comments.take gameSelf.moves.length)
      initAcplState) = none :=
  ⟨computeACPL_gameSelf, whiteOnlyWalk_gameSelf⟩

/-! ## Claim C2 -/

/-- C2 (amended): every result admitted by `RankByACPL` is sorted
ascending by ACPL — for entries `i < j`,
`result[i].ACPL ≤ result[j].ACPL` — and a result always exists; tie
order is *not* guaranteed to be input encounter order (`sort.Slice` is
not stable). -/
theorem claimC2_sorted_ascending :
    (∀ (parse : String → Option Game) (u : String) (mp : Int) (data : String)
       (err : Option String), ∃ res, RankByACPL parse u mp data err res)
  ∧ (∀ (parse : String → Option Game) (u : String) (mp : Int) (data : String)
       (err : Option String) (res : List GameACPL × Option String),
       RankByACPL parse u mp data err res →
       ∀ (i j : Nat) (hi : i < res.1.length) (hj : j < res.1.length), i < j →
         (res.1.get ⟨i, hi⟩).acpl ≤ (res.1.get ⟨j, hj⟩).acpl) := by
  constructor
  · intro parse u mp data err
    refine ⟨(List.insertionSort acplLE (scoredGames parse u mp data), err), ⟨?_, ?_⟩, rfl⟩
    · exact List.perm_insertionSort acplLE _
    · exact List.sorted_insertionSort acplLE _
  · intro parse u mp data err res h i j hi hj hij
    exact List.Sorted.rel_get_of_lt h.1.2 (Fin.mk_lt_mk.mpr hij)

/-- Witness for `claimC2_sorted_ascending` at concrete inputs. -/
theorem claimC2_sorted_ascending_witness :
    (∃ res, RankByACPL parseC2 "alice" 0 dataC2 none res) ∧
    entryA.acpl ≤ entryC.acpl :=
  ⟨claimC2_sorted_ascending.1 parseC2 "alice" 0 dataC2 none,
   claimC2_sorted_ascending.2 parseC2 "alice" 0 dataC2 none
     ([entryA, entryB, entryC], none)
     ⟨⟨by rw [scoredGames_C2], sorted_ABC⟩, rfl⟩
     0 2 (by norm_num) (by norm_num) (by norm_num)⟩

/-- C2 counterexample to stability: on the stream `dataC2` the scored
games arrive in order `entryA, entryB, entryC` with
`entryA.ACPL = entryB.ACPL = 0`, yet `RankByACPL` (whose sort is
`sort.Slice`, which guarantees only a sorted permutation, not
stability) admits the result `[entryB, entryA, entryC]`, where the
tied pair appears in the opposite of encounter order. -/
theorem claimC2_stability_counterexample :
    RankByACPL parseC2 "alice" 0 dataC2 none ([entryB, entryA, entryC], none) ∧
    scoredGames parseC2 "alice" 0 dataC2 = [entryA, entryB, entryC] ∧
    entryA.acpl = entryB.acpl ∧ entryA ≠ entryB := by
  refine ⟨⟨⟨?_, sorted_BAC⟩, rfl⟩, scoredGames_C2, rfl, entryAB_ne⟩
  rw [scoredGames_C2]
  exact List.Perm.swap entryA entryB [entryC]

/-! ## Claim C3 -/

/-- C3: in the per-game ply walk, a ply with no comment (or whose
effective, i.e. last, comment has no parseable evaluation) leaves the
state — including the carried baseline — unchanged; a ply with a
present evaluation always sets the baseline to the clamped evaluation
regardless of whose move it is; and the loss total and scored-ply
count change only when the ply is the tracked player's and a baseline
exists, in which case the count increments. -/
theorem claimC3_walk_step :
    ∀ (iw ib : Bool) (i : Nat) (anns : List String) (st : AcplState),
    (anns.getLast?.bind parseEval = none → acplStep iw ib i anns st = st)
  ∧ (∀ c e, anns.getLast? = some c → parseEval c = some e →
      (acplStep iw ib i anns st).prevEval = clampEval e ∧
      (acplStep iw ib i anns st).hasPrev = true)
  ∧ (¬(playerMove iw ib i = true ∧ st.hasPrev = true) →
      (acplStep iw ib i anns st).count = st.count ∧
      (acplStep iw ib i anns st).totalLoss = st.totalLoss)
  ∧ (∀ c e, anns.getLast? = some c → parseEval c = some e →
      playerMove iw ib i = true → st.hasPrev = true →
      (acplStep iw ib i anns st).count = st.count + 1) := by
  intro iw ib i anns st
  refine ⟨?_, ?_, ?_, ?_⟩
  · intro h
    rcases hg : anns.getLast? with _ | c
    · simp [acplStep, hg]
    · rw [hg] at h
      have hpc : parseEval c = none := h
      simp [acplStep, hg, hpc]
  · intro c e hg hp
    simp [acplStep, hg, hp]
  · intro h
    rcases hg : anns.getLast? with _ | c
    · simp [acplStep, hg]
    · rcases hp : parseEval c with _ | e
      · simp [acplStep, hg, hp]
      · have hcond : (playerMove iw ib i && st.hasPrev) = false := by
          rcases hpm : playerMove iw ib i with _ | _
          · simp
          · rcases hsp : st.hasPrev with _ | _
            · simp
            · exact absurd ⟨hpm, hsp⟩ h
        simp [acplStep, hg, hp, hcond]
  · intro c e hg hp hpm hsp
    have hcond : (playerMove iw ib i && st.hasPrev) = true := by
      rw [hpm, hsp]
      rfl
    simp [acplStep, hg, hp, hcond]

/-- Witness for `claimC3_walk_step` at concrete inputs: an
unannotated ply is inert, and the scenario's ply 2 (player's move with
baseline present) increments the count. -/
theorem claimC3_walk_step_witness :
    acplStep true false 0 [] initAcplState = initAcplState ∧
    (acplStep true false 2 ["[%eval 0.1]"] ⟨0, 0, -180, true⟩).count = 0 + 1 := by
  constructor
  · exact (claimC3_walk_step true false 0 [] initAcplState).1 rfl
  · refine (claimC3_walk_step true false 2 ["[%eval 0.1]"] ⟨0, 0, -180, true⟩).2.2.2
      "[%eval 0.1]" 10 rfl ?_ (by decide) rfl
    norm_num +decide [parseEval, goScanFloat, goApplyExp, findSubstr, evalKey,
      digitsVal, digitVal, isGoSpace, List.isPrefixOf]

/-! ## Claim C5 -/

/-- C5: an annotation whose text after the `"%eval "` marker begins
with `#` evaluates to a clamp boundary decided by the sign alone: to
`-1000` when `#` is followed by `-`, and to `+1000` otherwise, the
mate distance being ignored; e.g. `%eval #5 ↦ 1000` and
`%eval #-3 ↦ -1000`. -/
theorem claimC5_mate_eval :
    (∀ rest : String, parseEval ("%eval #-" ++ rest) = some (-1000))
  ∧ (∀ rest : String, rest.data.head? ≠ some '-' →
      parseEval ("%eval #" ++ rest) = some 1000)
  ∧ parseEval "%eval #5" = some 1000
  ∧ parseEval "%eval #-3" = some (-1000) := by
  refine ⟨?_, ?_, ?_, ?_⟩
  · intro rest
    have hd : ("%eval #-" ++ rest).data =
        '%' :: 'e' :: 'v' :: 'a' :: 'l' :: ' ' :: '#' :: '-' :: rest.data := by
      rw [String.data_append]
      rfl
    simp [parseEval, hd, findSubstr, evalKey, List.isPrefixOf]
  · intro rest h
    have hd : ("%eval #" ++ rest).data =
        '%' :: 'e' :: 'v' :: 'a' :: 'l' :: ' ' :: '#' :: rest.data := by
      rw [String.data_append]
      rfl
    rcases hr : rest.data with _ | ⟨c, t⟩
    · simp [parseEval, hd, hr, findSubstr, evalKey, List.isPrefixOf]
    · rw [hr] at hd
      have hc : c ≠ '-' := by
        intro hcontra
        rw [hr, hcontra] at h
        exact h rfl
      simp only [parseEval, hd, findSubstr, evalKey, List.isPrefixOf]
      norm_num +decide
      split
      · next x tail heq =>
        rw [List.cons.injEq] at heq
        exact absurd heq.1 hc
      · rfl
  · norm_num +decide [parseEval, goScanFloat, goApplyExp, findSubstr, evalKey,
      digitsVal, digitVal, isGoSpace, List.isPrefixOf]
  · norm_num +decide [parseEval, goScanFloat, goApplyExp, findSubstr, evalKey,
      digitsVal, digitVal, isGoSpace, List.isPrefixOf]

/-- Witness for `claimC5_mate_eval` at concrete inputs (the mate
distance is ignored: distances 7 and 12 both map to the boundary). -/
theorem claimC5_mate_eval_witness :
    parseEval ("%eval #-" ++ "7") = some (-1000) ∧
    parseEval ("%eval #" ++ "12") = some 1000 :=
  ⟨claimC5_mate_eval.1 "7", claimC5_mate_eval.2.1 "12" (by decide)⟩

/-! ## Claim C6 -/

/-- C6: an annotation without the `"%eval "` marker is NotPresent;
with the marker and non-mate text, the following text is scanned as a
decimal number of pawns and scaled by 100 to centipawns — in
particular `%eval 1.5 ↦ 150` and `%eval -0.3 ↦ -30` (exact-rational
reading) — and a malformed numeral (the scan fails) is NotPresent. -/
theorem claimC6_numeric_eval :
    (∀ s : String, findSubstr s.data evalKey = none → parseEval s = none)
  ∧ (∀ rest : String, rest.data.head? ≠ some '#' →
      parseEval ("%eval " ++ rest) = (goScanFloat rest.data).map (· * 100))
  ∧ parseEval "%eval 1.5" = some 150
  ∧ parseEval "%eval -0.3" = some (-30)
  ∧ parseEval "%eval abc" = none
  ∧ parseEval "this comment has no evaluation marker" = none := by
  refine ⟨?_, ?_, ?_, ?_, ?_, ?_⟩
  · intro s h
    simp [parseEval, h]
  · intro rest h
    have hd : ("%eval " ++ rest).data =
        '%' :: 'e' :: 'v' :: 'a' :: 'l' :: ' ' :: rest.data := by
      rw [String.data_append]
      rfl
    rcases hr : rest.data with _ | ⟨c, t⟩
    · simp [parseEval, hd, hr, findSubstr, evalKey, List.isPrefixOf]
    · rw [hr] at hd
      have hc : c ≠ '#' := by
        intro hcontra
        rw [hr, hcontra] at h
        exact h rfl
      simp only [parseEval, hd, findSubstr, evalKey, List.isPrefixOf]
      norm_num +decide
      split
      · next x tail heq =>
        rw [List.cons.injEq] at heq
        exact absurd heq.1 hc
      · rfl
  · norm_num +decide [parseEval, goScanFloat, goApplyExp, findSubstr, evalKey,
      digitsVal, digitVal, isGoSpace, List.isPrefixOf]
  · norm_num +decide [parseEval, goScanFloat, goApplyExp, findSubstr, evalKey,
      digitsVal, digitVal, isGoSpace, List.isPrefixOf]
  · norm_num +decide [parseEval, goScanFloat, goApplyExp, findSubstr, evalKey,
      digitsVal, digitVal, isGoSpace, List.isPrefixOf]
  · norm_num +decide [parseEval, goScanFloat, goApplyExp, findSubstr, evalKey,
      digitsVal, digitVal, isGoSpace, List.isPrefixOf]

/-- Witness for `claimC6_numeric_eval` at concrete inputs. -/
theorem claimC6_numeric_eval_witness :
    parseEval "no marker at all" = none ∧
    parseEval ("%eval " ++ "2.25") = (goScanFloat "2.25".data).map (· * 100) :=
  ⟨claimC6_numeric_eval.1 "no marker at all" (by decide),
   claimC6_numeric_eval.2.1 "2.25" (by decide)⟩

/-! ## Claim C4 -/

/-- C4: end-to-end scenario.  On the stream `data4` — the records
`rec4a` (tags `White=alice`, `Black=bob`, plies annotated
`[%eval 0.2]`, `[%eval -1.8]`, `[%eval 0.1]`) and `rec4b`, separated
by `"\n\n\n"` — ranking for `alice` with `minPlies = 0` yields exactly
one entry, with ACPL 0, and exactly one scored ply for that game
(ply 0 is skipped for lack of a baseline; ply 2 has baseline −180,
current 10, loss −190 clamped to 0). -/
theorem claimC4_end_to_end :
    RankByACPL parse4 "alice" 0 data4 none ([⟨game4, 0⟩], none)
  ∧ (∀ res, RankByACPL parse4 "alice" 0 data4 none res → res = ([⟨game4, 0⟩], none))
  ∧ (computeState game4 "alice").count = 1
  ∧ computeACPL game4 "alice" = some 0 := by
  refine ⟨⟨⟨?_, ?_⟩, rfl⟩, ?_, computeState_game4_count, computeACPL_game4⟩
  · rw [scoredGames_C4]
  · exact List.sorted_singleton _
  · intro res h
    rcases h with ⟨⟨hperm, _⟩, herr⟩
    rw [scoredGames_C4] at hperm
    have h1 : res.1 = [⟨game4, 0⟩] := List.perm_singleton.mp hperm
    cases res with
    | mk l e =>
      simp only at h1 herr
      rw [h1, herr]

/-- Witness for `claimC4_end_to_end`: the uniqueness part applied to
the admissible result itself. -/
theorem claimC4_end_to_end_witness :
    (scoredGames parse4 "alice" 0 data4).length = 1 ∧
    (([⟨game4, 0⟩], none) : List GameACPL × Option String) = ([⟨game4, 0⟩], none) :=
  ⟨by rw [scoredGames_C4]; rfl,
   claimC4_end_to_end.2.1 ([⟨game4, 0⟩], none) claimC4_end_to_end.1⟩

/-! ## Claim C7 -/

/-- C7: the only error `RankByACPL` returns is the terminal
stream-read error, surfaced once after all consumable records are
processed; a record the parser rejects is silently skipped and
contributes nothing; and zero qualifying games is not an error — the
result is the empty list with the stream error (none on success). -/
theorem claimC7_error_handling :
    (∀ (parse : String → Option Game) (u : String) (mp : Int) (data : String)
       (err : Option String) (res : List GameACPL × Option String),
       RankByACPL parse u mp data err res → res.2 = err)
  ∧ (∀ (parse : String → Option Game) (u : String) (mp : Int) (r : String),
       parse r = none → scoreRecord parse u mp r = none)
  ∧ (∀ (parse : String → Option Game) (u : String) (mp : Int) (data : String)
       (err : Option String) (res : List GameACPL × Option String),
       scoredGames parse u mp data = [] →
       RankByACPL parse u mp data err res → res = ([], err)) := by
  refine ⟨?_, ?_, ?_⟩
  · intro parse u mp data err res h
    exact h.2
  · intro parse u mp r h
    unfold scoreRecord
    split
    · rfl
    · rw [h]
  · intro parse u mp data err res hempty h
    rcases h with ⟨⟨hperm, _⟩, herr⟩
    rw [hempty] at hperm
    have h1 : res.1 = [] := List.Perm.eq_nil hperm
    cases res with
    | mk l e =>
      simp only at h1 herr
      rw [h1, herr]

/-- Witness for `claimC7_error_handling` at concrete inputs: a parser
that rejects everything yields no entry for a record, and the empty
stream yields the empty result with the stream error propagated. -/
theorem claimC7_error_handling_witness :
    scoreRecord (fun _ => none) "u" 0 "record text" = none ∧
    (([], some "read failure") : List GameACPL × Option String) =
      ([], some "read failure") :=
  ⟨claimC7_error_handling.2.1 (fun _ => none) "u" 0 "record text" rfl,
   claimC7_error_handling.2.2 (fun _ => none) "u" 0 "" (some "read failure")
     ([], some "read failure") rfl
     ⟨⟨List.Perm.refl _, List.sorted_nil⟩, rfl⟩⟩

/-! ## Claim C8 -/

/-- C8: the splitter separates records exactly at each occurrence of
the delimiter `"\n\n\n"` (first occurrence first, then the rest of
the stream); when the input is exhausted with no further delimiter it
emits the remaining buffer as a final record, emitting nothing when
that residue is empty; and it is round-trip faithful: re-joining the
emitted records with the delimiter reproduces the original stream, up
to a possibly missing trailing delimiter. -/
theorem claimC8_splitter :
    (∀ (s : List Char) (i : Nat), findSubstr s splitDelim = some i →
      scanTokens s = s.take i :: scanTokens (s.drop (i + 3)))
  ∧ (∀ s : List Char, s ≠ [] → findSubstr s splitDelim = none →
      scanTokens s = [s])
  ∧ scanTokens [] = []
  ∧ (∀ s : List Char, joinDelim (scanTokens s) = s ∨
      joinDelim (scanTokens s) ++ splitDelim = s) := by
  refine ⟨?_, ?_, scanTokens_nil, scanTokens_roundTrip⟩
  · intro s i h
    exact scanTokens_delim h
  · intro s hne h
    exact scanTokens_last hne h

/-- Witness for `claimC8_splitter` at concrete inputs. -/
theorem claimC8_splitter_witness :
    scanTokens "ab\n\n\ncd".data =
      "ab\n\n\ncd".data.take 2 :: scanTokens ("ab\n\n\ncd".data.drop (2 + 3)) ∧
    scanTokens "cd".data = ["cd".data] :=
  ⟨claimC8_splitter.1 "ab\n\n\ncd".data 2 (by decide),
   claimC8_splitter.2.1 "cd".data (by decide) (by decide)⟩

/-! ## Claim C9 -/

/-- C9: a step of the walk never decreases the accumulated loss total
(a favorable swing is clamped to zero, never credited), and every
clamped evaluation lies in `[-1000, 1000]`. -/
theorem claimC9_loss_nonneg :
    (∀ (iw ib : Bool) (i : Nat) (anns : List String) (st : AcplState),
      st.totalLoss ≤ (acplStep iw ib i anns st).totalLoss)
  ∧ (∀ e : ℚ, -1000 ≤ clampEval e ∧ clampEval e ≤ 1000) := by
  refine ⟨acplStep_totalLoss_le, ?_⟩
  intro e
  unfold clampEval
  split_ifs with h1 h2
  · constructor <;> norm_num
  · constructor <;> norm_num
  · push_neg at h1 h2
    exact ⟨h2, h1⟩

/-! ## Lemmas about the IEEE-special-value refinement -/

theorem clampEvalF_finOrNan (e : GoFloat) :
    clampEvalF e = GoFloat.nan ∨ ∃ q : ℚ, clampEvalF e = GoFloat.fin q := by
  rcases e with _ | s | q
  · left; rfl
  · cases s
    · right; exact ⟨1000, rfl⟩
    · right; exact ⟨-1000, rfl⟩
  · unfold clampEvalF
    split_ifs
    · right; exact ⟨1000, rfl⟩
    · right; exact ⟨-1000, rfl⟩
    · right; exact ⟨q, rfl⟩

theorem gfSub_finOrNan {a b : GoFloat}
    (ha : a = GoFloat.nan ∨ ∃ q : ℚ, a = GoFloat.fin q)
    (hb : b = GoFloat.nan ∨ ∃ q : ℚ, b = GoFloat.fin q) :
    gfSub a b = GoFloat.nan ∨ ∃ q : ℚ, gfSub a b = GoFloat.fin q := by
  rcases ha with rfl | ⟨qa, rfl⟩
  · left
    cases b <;> rfl
  · rcases hb with rfl | ⟨qb, rfl⟩
    · left; rfl
    · right; exact ⟨qa - qb, rfl⟩

theorem gfNeg_finOrNan {a : GoFloat}
    (ha : a = GoFloat.nan ∨ ∃ q : ℚ, a = GoFloat.fin q) :
    gfNeg a = GoFloat.nan ∨ ∃ q : ℚ, gfNeg a = GoFloat.fin q := by
  rcases ha with rfl | ⟨qa, rfl⟩
  · left; rfl
  · right; exact ⟨-qa, rfl⟩

theorem lossFloor_nonnegOrNan {l : GoFloat}
    (hl : l = GoFloat.nan ∨ ∃ q : ℚ, l = GoFloat.fin q) :
    (if gfLt l (GoFloat.fin 0) then GoFloat.fin 0 else l) = GoFloat.nan ∨
    ∃ q : ℚ, (if gfLt l (GoFloat.fin 0) then GoFloat.fin 0 else l) = GoFloat.fin q ∧
      0 ≤ q := by
  rcases hl with rfl | ⟨q, rfl⟩
  · left; rfl
  · by_cases h : q < 0
    · right
      refine ⟨0, ?_, le_refl 0⟩
      have : gfLt (GoFloat.fin q) (GoFloat.fin 0) = true := by
        simp [gfLt, h]
      rw [if_pos this]
    · right
      refine ⟨q, ?_, le_of_not_lt h⟩
      have : gfLt (GoFloat.fin q) (GoFloat.fin 0) = false := by
        simp [gfLt, h]
      rw [this]
      simp

theorem gfAdd_nonnegOrNan {a b : GoFloat}
    (ha : a = GoFloat.nan ∨ ∃ q : ℚ, a = GoFloat.fin q ∧ 0 ≤ q)
    (hb : b = GoFloat.nan ∨ ∃ q : ℚ, b = GoFloat.fin q ∧ 0 ≤ q) :
    gfAdd a b = GoFloat.nan ∨ ∃ q : ℚ, gfAdd a b = GoFloat.fin q ∧ 0 ≤ q := by
  rcases ha with rfl | ⟨qa, rfl, hqa⟩
  · left
    cases b <;> rfl
  · rcases hb with rfl | ⟨qb, rfl, hqb⟩
    · left; rfl
    · right; exact ⟨qa + qb, rfl, add_nonneg hqa hqb⟩

theorem acplStepF_inv (iw ib : Bool) (i : Nat) (anns : List String) (st : AcplStateF)
    (h1 : st.totalLoss = GoFloat.nan ∨
      ∃ q : ℚ, st.totalLoss = GoFloat.fin q ∧ 0 ≤ q)
    (h2 : st.prevEval = GoFloat.nan ∨ ∃ q : ℚ, st.prevEval = GoFloat.fin q) :
    ((acplStepF iw ib i anns st).totalLoss = GoFloat.nan ∨
      ∃ q : ℚ, (acplStepF iw ib i anns st).totalLoss = GoFloat.fin q ∧ 0 ≤ q) ∧
    ((acplStepF iw ib i anns st).prevEval = GoFloat.nan ∨
      ∃ q : ℚ, (acplStepF iw ib i anns st).prevEval = GoFloat.fin q) := by
  rcases hg : anns.getLast? with _ | c
  · simp only [acplStepF, hg]
    exact ⟨h1, h2⟩
  · rcases hp : parseEvalF c with _ | e0
    · simp only [acplStepF, hg, hp]
      exact ⟨h1, h2⟩
    · by_cases hpm : (playerMove iw ib i && st.hasPrev) = true
      · simp only [acplStepF, hg, hp, hpm, if_true]
        constructor
        · refine gfAdd_nonnegOrNan h1 (lossFloor_nonnegOrNan ?_)
          rcases hib : ib with _ | _
          · simp only [Bool.false_eq_true, if_false]
            exact gfSub_finOrNan h2 (clampEvalF_finOrNan e0)
          · simp only [if_true]
            exact gfNeg_finOrNan (gfSub_finOrNan h2 (clampEvalF_finOrNan e0))
        · exact clampEvalF_finOrNan e0
      · simp only [acplStepF, hg, hp, hpm, Bool.false_eq_true, if_false]
        exact ⟨h1, clampEvalF_finOrNan e0⟩

theorem acplWalkF_inv (iw ib : Bool) (l : List (List String)) :
    ∀ (i : Nat) (st : AcplStateF),
      (st.totalLoss = GoFloat.nan ∨
        ∃ q : ℚ, st.totalLoss = GoFloat.fin q ∧ 0 ≤ q) →
      (st.prevEval = GoFloat.nan ∨ ∃ q : ℚ, st.prevEval = GoFloat.fin q) →
      ((acplWalkF iw ib i l st).totalLoss = GoFloat.nan ∨
        ∃ q : ℚ, (acplWalkF iw ib i l st).totalLoss = GoFloat.fin q ∧ 0 ≤ q) := by
  induction l with
  | nil => intro i st h1 _; exact h1
  | cons anns rest ih =>
    intro i st h1 h2
    have hstep := acplStepF_inv iw ib i anns st h1 h2
    exact ih (i + 1) (acplStepF iw ib i anns st) hstep.1 hstep.2

theorem computeACPLF_eq_some {g : Game} {u : String} {a : GoFloat}
    (h : computeACPLF g u = some a) :
    a = gfDivNat (computeStateF g u).totalLoss (computeStateF g u).count ∧
    1 ≤ (computeStateF g u).count := by
  cases hb : (!eqFold (lastTagValue g.tagPairs "White") u &&
      !eqFold (lastTagValue g.tagPairs "Black") u) with
  | true =>
    simp only [computeACPLF, hb, if_true] at h
    cases h
  | false =>
    simp only [computeACPLF, hb, Bool.false_eq_true, if_false] at h
    unfold acplFinishF at h
    split at h
    · cases h
    · next hc =>
      cases h
      exact ⟨rfl, Nat.one_le_iff_ne_zero.mpr hc⟩

theorem computeACPLF_nonneg_or_nan {g : Game} {u : String} {a : GoFloat}
    (h : computeACPLF g u = some a) :
    a = GoFloat.nan ∨ ∃ q : ℚ, a = GoFloat.fin q ∧ 0 ≤ q := by
  rcases computeACPLF_eq_some h with ⟨ha, hcount⟩
  have htot := acplWalkF_inv
    (eqFold (lastTagValue g.tagPairs "White") u)
    (eqFold (lastTagValue g.tagPairs "Black") u)
    (g.comments.take g.moves.length) 0 initAcplStateF
    (Or.inr ⟨0, rfl, le_refl 0⟩) (Or.inr ⟨0, rfl⟩)
  rcases htot with hnan | ⟨q, hfin, hq⟩
  · left
    rw [ha]
    show gfDivNat (computeStateF g u).totalLoss (computeStateF g u).count = GoFloat.nan
    have : (computeStateF g u).totalLoss = GoFloat.nan := hnan
    rw [this]
    rfl
  · right
    have hc0 : (computeStateF g u).count ≠ 0 := by omega
    refine ⟨q / ((computeStateF g u).count : ℚ), ?_, ?_⟩
    · rw [ha]
      show gfDivNat (computeStateF g u).totalLoss (computeStateF g u).count = _
      have : (computeStateF g u).totalLoss = GoFloat.fin q := hfin
      rw [this]
      simp [gfDivNat, hc0]
    · exact div_nonneg hq (Nat.cast_nonneg _)

theorem scoreRecordF_mem_acpl {parse : String → Option Game} {u : String}
    {mp : Int} {pgn : String} {e : GameACPLF}
    (h : scoreRecordF parse u mp pgn = some e) :
    computeACPLF e.game u = some e.acpl := by
  unfold scoreRecordF at h
  split at h
  · cases h
  · rcases hpp : parse pgn with _ | g
    · rw [hpp] at h; cases h
    · rw [hpp] at h
      simp only at h
      split at h
      · cases h
      · rcases hc : computeACPLF g u with _ | a
        · rw [hc] at h; cases h
        · rw [hc] at h
          cases h
          exact hc

set_option maxRecDepth 10000 in
theorem scanTokens_dataNan : scanTokens dataNan.data = [recNan.data] := by
  decide

theorem parseEvalF_nanLit : parseEvalF "[%eval nan]" = some GoFloat.nan := by
  norm_num +decide [parseEvalF, goScanFloatF, isNanPre, isInfPre, isHexPre, gfMul100,
    goScanHex, goApplyExpHex, goScanFloat, goApplyExp, findSubstr, evalKey, digitsVal,
    digitVal, isGoSpace, List.isPrefixOf]

theorem computeACPLF_gNan : computeACPLF gNan "alice" = some GoFloat.nan := by
  norm_num +decide [computeACPLF, computeStateF, acplWalkF, acplStepF, acplFinishF,
    initAcplStateF, clampEvalF, gfLt, gfSub, gfNeg, gfAdd, gfMul100, gfDivNat,
    playerMove, whiteMove, eqFold, lowerASCII, lastTagValue, gNan, parseEvalF,
    goScanFloatF, isNanPre, isInfPre, isHexPre, goScanHex, goApplyExpHex, goScanFloat,
    goApplyExp, findSubstr, evalKey, digitsVal, digitVal, isGoSpace, List.isPrefixOf]

theorem scoreRecordF_recNan :
    scoreRecordF parseNan "alice" 0 recNan = some ⟨gNan, GoFloat.nan⟩ := by
  norm_num +decide [scoreRecordF, blankRecord, parseNan, recNan, isGoSpace,
    computeACPLF, computeStateF, acplWalkF, acplStepF, acplFinishF, initAcplStateF,
    clampEvalF, gfLt, gfSub, gfNeg, gfAdd, gfMul100, gfDivNat, playerMove, whiteMove,
    eqFold, lowerASCII, lastTagValue, gNan, parseEvalF, goScanFloatF, isNanPre,
    isInfPre, isHexPre, goScanHex, goApplyExpHex, goScanFloat, goApplyExp, findSubstr,
    evalKey, digitsVal, digitVal, List.isPrefixOf]

theorem scoredGamesF_nan :
    scoredGamesF parseNan "alice" 0 dataNan = [⟨gNan, GoFloat.nan⟩] := by
  unfold scoredGamesF
  rw [scanTokens_dataNan]
  simp only [List.map_cons, List.map_nil, stringMk_data]
  simp only [List.filterMap_cons, scoreRecordF_recNan, List.filterMap_nil]

/-! ## Claim C10 -/

/-- C10 counterexample: the claim's no-NaN clause fails on the code.
`fmt.Sscanf %f` accepts the token `nan`, so `[%eval nan]` evaluates to
NaN; the clamp (`> 1000` / `< -1000`) and the loss floor (`< 0`) are
IEEE comparisons that are false for NaN and pass it through, so on the
single-record stream `dataNan` the ranking emits the entry
`⟨gNan, NaN⟩`: a NaN ACPL appears in the output. -/
theorem claimC10_nan_counterexample :
    RankByACPLF parseNan "alice" 0 dataNan none ([⟨gNan, GoFloat.nan⟩], none)
  ∧ computeACPLF gNan "alice" = some GoFloat.nan
  ∧ parseEvalF "[%eval nan]" = some GoFloat.nan := by
  refine ⟨⟨?_, rfl⟩, computeACPLF_gNan, parseEvalF_nanLit⟩
  rw [scoredGamesF_nan]

/-- C10 (amended): every `GameACPL` entry in every result admitted by
`RankByACPL` has an ACPL that is either NaN — reachable only through a
NaN `%eval` annotation, see the counterexample — or a non-negative
finite value; no infinite and no negative score ever appears, and an
entry is only emitted when at least one ply was scored
(`count ≥ 1`). -/
theorem claimC10_output_nonneg_or_nan :
    (∀ (parse : String → Option Game) (u : String) (mp : Int) (data : String)
       (err : Option String) (res : List GameACPLF × Option String),
       RankByACPLF parse u mp data err res →
       ∀ e ∈ res.1, e.acpl = GoFloat.nan ∨
         ∃ q : ℚ, e.acpl = GoFloat.fin q ∧ 0 ≤ q)
  ∧ (∀ (g : Game) (u : String) (a : GoFloat), computeACPLF g u = some a →
       1 ≤ (computeStateF g u).count) := by
  constructor
  · intro parse u mp data err res h e he
    have hmem : e ∈ scoredGamesF parse u mp data := (h.1.mem_iff).mp he
    unfold scoredGamesF at hmem
    rcases List.mem_filterMap.mp hmem with ⟨pgn, _, hsc⟩
    exact computeACPLF_nonneg_or_nan (scoreRecordF_mem_acpl hsc)
  · intro g u a h
    exact (computeACPLF_eq_some h).2

/-- Witness for `claimC10_output_nonneg_or_nan` at concrete inputs:
applied to the NaN stream's admissible result (whose single entry
realizes the NaN disjunct) and to `gNan`'s scored-ply count. -/
theorem claimC10_output_nonneg_or_nan_witness :
    ((⟨gNan, GoFloat.nan⟩ : GameACPLF).acpl = GoFloat.nan ∨
      ∃ q : ℚ, (⟨gNan, GoFloat.nan⟩ : GameACPLF).acpl = GoFloat.fin q ∧ 0 ≤ q) ∧
    1 ≤ (computeStateF gNan "alice").count :=
  ⟨claimC10_output_nonneg_or_nan.1 parseNan "alice" 0 dataNan none
     ([⟨gNan, GoFloat.nan⟩], none)
     ⟨by rw [scoredGamesF_nan], rfl⟩ ⟨gNan, GoFloat.nan⟩ (by simp),
   claimC10_output_nonneg_or_nan.2 gNan "alice" GoFloat.nan computeACPLF_gNan⟩
